import Mathlib

/-!
Verification of the pykit angle library (src/angles_utility.py and
src/angles.py).

Python floats are modelled exactly: by the rational numbers for the purely
rational degree computations (equality tolerance, ordering, interpolation)
and by the real and complex numbers for the analytic layer (radians, unit
vectors, circular mean, geometric median).  The Python float modulo
operator x % y (for y > 0) is modelled by fmod x y = x - y * floor (x / y).
-/

/-- Model of the Python float modulo operator x % y for y > 0, as used in
the degree and radian setters: x % y = x - y * floor (x / y). -/
def fmod {α : Type} [LinearOrderedField α] [FloorRing α] (x y : α) : α :=
  x - y * (⌊x / y⌋ : α)

section FmodLemmas

variable {α : Type} [LinearOrderedField α] [FloorRing α]

theorem fmod_eq_fract (x : α) {y : α} (hy : y ≠ 0) :
    fmod x y = y * Int.fract (x / y) := by
  have h : y * (x / y) = x := by field_simp
  rw [fmod, Int.fract, mul_sub, h]

theorem fmod_nonneg (x : α) {y : α} (hy : 0 < y) : 0 ≤ fmod x y := by
  rw [fmod_eq_fract x hy.ne']
  exact mul_nonneg hy.le (Int.fract_nonneg _)

theorem fmod_lt (x : α) {y : α} (hy : 0 < y) : fmod x y < y := by
  rw [fmod_eq_fract x hy.ne']
  calc y * Int.fract (x / y) < y * 1 :=
        (mul_lt_mul_left hy).mpr (Int.fract_lt_one _)
    _ = y := mul_one y

theorem fmod_eq_self {x y : α} (h0 : 0 ≤ x) (h1 : x < y) : fmod x y = x := by
  have hy : 0 < y := lt_of_le_of_lt h0 h1
  have hfloor : ⌊x / y⌋ = 0 := by
    rw [Int.floor_eq_zero_iff]
    exact ⟨div_nonneg h0 hy.le, (div_lt_one hy).mpr h1⟩
  rw [fmod, hfloor]
  simp

theorem fmod_zero_left {y : α} (hy : 0 < y) : fmod 0 y = 0 :=
  fmod_eq_self le_rfl hy

theorem fmod_of_neg {x y : α} (hy : 0 < y) (h0 : -y ≤ x) (h1 : x < 0) :
    fmod x y = x + y := by
  have hfloor : ⌊x / y⌋ = -1 := by
    rw [Int.floor_eq_iff]
    refine ⟨?_, ?_⟩
    · push_cast
      rw [le_div_iff hy]
      linarith
    · push_cast
      rw [div_lt_iff hy]
      linarith
  rw [fmod, hfloor]
  push_cast
  ring

theorem fmod_add_int_mul (x : α) {y : α} (hy : y ≠ 0) (k : ℤ) :
    fmod (x + y * (k : α)) y = fmod x y := by
  have hdiv : (x + y * (k : α)) / y = x / y + (k : α) := by
    field_simp
    ring
  rw [fmod, fmod, hdiv, Int.floor_add_int]
  push_cast
  ring

theorem fmod_neg_eq {x y : α} (hy : 0 < y) :
    fmod (-x) y = if fmod x y = 0 then 0 else y - fmod x y := by
  have hm0 : 0 ≤ fmod x y := fmod_nonneg x hy
  have hm1 : fmod x y < y := fmod_lt x hy
  have hx : -x = -(fmod x y) + y * ((-⌊x / y⌋ : ℤ) : α) := by
    rw [fmod]
    push_cast
    ring
  rw [hx, fmod_add_int_mul _ hy.ne']
  by_cases h : fmod x y = 0
  · rw [if_pos h, h, neg_zero, fmod_zero_left hy]
  · rw [if_neg h]
    have hpos : 0 < fmod x y := lt_of_le_of_ne hm0 (Ne.symm h)
    rw [fmod_of_neg hy (by linarith) (by linarith)]
    ring

end FmodLemmas

/-!
Rational degree layer.  The methods Angle.__eq__, Angle.sdegree, Angle._gt,
Angle.__gt__, Angle.__ge__ and the function angspace compute only with
degree values (the canonical stored degree of an Angle, produced by the
degree setter as value % 360, and bare scalar operands).  They are modelled
here over the rationals, which represent the relevant float degree values
exactly and keep every statement decidable.
-/

namespace DegModel

/-- Degree normalization performed by the Angle.degree setter
(src/angles_utility.py line 36): self._degree = float(value % 360). -/
def qmod360 (x : ℚ) : ℚ := fmod x 360

/-- np.isclose(a, b, rtol, atol) for finite floats:
|a - b| <= atol + rtol * |b|.  The numpy defaults are rtol=1e-05 and
atol=1e-08; Angle.__eq__ overrides only rtol. -/
def np_isclose (a b rtol atol : ℚ) : Bool := decide (|a - b| ≤ atol + rtol * |b|)

/-- The wraparound fold of Angle.__eq__ (src/angles_utility.py
lines 115-117): diff = abs(comparison_value - self.degree);
if diff > 359: diff -= 360. -/
def foldDiff (selfDeg v : ℚ) : ℚ :=
  let diff := |v - selfDeg|
  if 359 < diff then diff - 360 else diff

/-- Angle.__eq__ (src/angles_utility.py lines 109-118) on degree values:
returns np.isclose(diff, 0, rtol=1e-12) where diff is the folded absolute
difference and atol keeps the numpy default 1e-08.  For an Angle right
operand, v is its stored (canonical) degree; for a bare scalar, v is the
raw scalar. -/
def eqQ (selfDeg v : ℚ) : Bool := np_isclose (foldDiff selfDeg v) 0 1e-12 1e-8

/-- Angle.sdegree (src/angles_utility.py lines 81-83):
self.degree if self.degree < 180 else self.degree - 360. -/
def sdegQ (d : ℚ) : ℚ := if d < 180 then d else d - 360

/-- The scalar folding of Angle._gt and Angle._lt (src/angles_utility.py
lines 127-128): value %= 360; if value > 180: value -= 360. -/
def scalarFold (v : ℚ) : ℚ :=
  let v2 := qmod360 v
  if 180 < v2 then v2 - 360 else v2

/-- Angle.__gt__ against an Angle right operand (src/angles_utility.py
lines 123-125 and 131-133): false on __eq__, else sdegree comparison. -/
def gtQ (selfDeg otherDeg : ℚ) : Bool :=
  if eqQ selfDeg otherDeg then false else decide (sdegQ otherDeg < sdegQ selfDeg)

/-- Angle.__gt__ against a bare scalar (src/angles_utility.py
lines 126-129 and 131-133). -/
def gtScalarQ (selfDeg v : ℚ) : Bool :=
  if eqQ selfDeg v then false else decide (scalarFold v < sdegQ selfDeg)

/-- Angle.__ge__ against an Angle right operand (src/angles_utility.py
lines 135-137): true on __eq__, else the _gt comparison. -/
def geQ (selfDeg otherDeg : ℚ) : Bool :=
  if eqQ selfDeg otherDeg then true else decide (sdegQ otherDeg < sdegQ selfDeg)

/-- Claim-side definition for C1, following the words of the specification:
the folded difference is within a relative tolerance of 1e-12 of zero,
i.e. |x - 0| <= 1e-12 * |0|. -/
def specRelClose12Zero (x : ℚ) : Bool := decide (|x - 0| ≤ 1e-12 * |(0 : ℚ)|)

/-- Claim-side definition for C9, following the words of the specification:
a degree value re-expressed in the signed range (-180, 180]. -/
def specSignedDegree (d : ℚ) : ℚ :=
  let m := qmod360 d
  if 180 < m then m - 360 else m

/-- angspace (src/angles_utility.py lines 179-196) at the degree level: the
function reads only start.degree and end.degree.  The guard models
"type(steps) != int or steps < 2" (steps is a natural number here, so only
the lower bound remains); the failure raises ValueError, modelled as none.
sweepsize = (end.degree - start.degree) % 360,
increment = sweepsize / (steps - 1), and the i-th element is
(start.degree + i * increment) % 360 for i in range(steps). -/
def angspace (startDeg endDeg : ℚ) (steps : ℕ) : Option (List ℚ) :=
  if steps < 2 then none
  else
    let sweepsize := qmod360 (endDeg - startDeg)
    let increment := sweepsize / ((steps : ℚ) - 1)
    some ((List.range steps).map (fun i : ℕ => qmod360 (startDeg + (i : ℚ) * increment)))

end DegModel

/-!
Analytic layer.  The Angle class state and every member that touches the
radian or complex view are modelled over the exact reals and complexes.
Library functions used by the source: np.deg2rad, np.rad2deg, cmath.rect,
cmath.polar (modelled by Complex.abs and Complex.arg, whose principal value
lies in the interval Ioc (-pi) pi, as the cmath phase does), np.conjugate.
Python truthiness of an optional numeric argument (if complex: / elif rad:
/ elif deg:) is the conjunction "present and nonzero".
-/

open scoped Classical

/-- np.deg2rad: multiply by pi / 180. -/
noncomputable def deg2rad (d : ℝ) : ℝ := d * (Real.pi / 180)

/-- np.rad2deg: multiply by 180 / pi. -/
noncomputable def rad2deg (r : ℝ) : ℝ := r * (180 / Real.pi)

/-- cmath.rect(r, phi) = r * (cos phi + i sin phi) = r * exp(i phi). -/
noncomputable def rect (r phi : ℝ) : ℂ := (r : ℂ) * Complex.exp ((phi : ℂ) * Complex.I)

/-- Python truthiness of an optional float argument: present and nonzero. -/
def pyTruthyR : Option ℝ → Prop
  | none => False
  | some v => v ≠ 0

/-- Python truthiness of an optional complex argument: present and nonzero. -/
def pyTruthyC : Option ℂ → Prop
  | none => False
  | some z => z ≠ 0

namespace AU

/-- The instance state of class Angle (src/angles_utility.py): the three
synchronized fields _degree, _radian, _complex written by the setters. -/
structure Angle where
  degree : ℝ
  radian : ℝ
  complex : ℂ

/-- The Angle.degree setter (src/angles_utility.py lines 34-38):
_degree = value % 360; _radian = deg2rad(_degree);
_complex = rect(1, _radian). -/
noncomputable def degreeSet (value : ℝ) : Angle :=
  let d := fmod value 360
  ⟨d, deg2rad d, rect 1 (deg2rad d)⟩

/-- The Angle.radian setter (src/angles_utility.py lines 44-48):
_radian = value % (2 pi); _degree = rad2deg(_radian);
_complex = rect(1, _radian). -/
noncomputable def radianSet (value : ℝ) : Angle :=
  let r := fmod value (2 * Real.pi)
  ⟨rad2deg r, r, rect 1 r⟩

/-- The Angle.complex setter (src/angles_utility.py lines 54-60):
r, ang = polar(value); _complex = value / r; _radian = ang % (2 pi);
_degree = rad2deg(_radian).  The "if r==0: self._complex(1+0j)" line is
inert (it calls an attribute instead of assigning and raises at runtime);
every call site reached from the public surface guards r > 0 through the
truthiness dispatch of __init__, so the setter is modelled on that path. -/
noncomputable def complexSet (value : ℂ) : Angle :=
  let r := Complex.abs value
  let rad := fmod (Complex.arg value) (2 * Real.pi)
  ⟨rad2deg rad, rad, value / (r : ℂ)⟩

/-- Angle.__init__ (src/angles_utility.py lines 21-25):
if complex: self.complex = complex; elif rad: self.radian = rad;
elif deg: self.degree = deg; else: self.degree = 0.
A zero or absent seed is falsy and falls through. -/
noncomputable def angleInit (deg rad : Option ℝ) (cseed : Option ℂ) : Angle :=
  if pyTruthyC cseed then complexSet (cseed.getD 0)
  else if pyTruthyR rad then radianSet (rad.getD 0)
  else if pyTruthyR deg then degreeSet (deg.getD 0)
  else degreeSet 0

/-- Angle.sin (lines 62-64): np.imag(self.complex). -/
def sin (s : Angle) : ℝ := s.complex.im

/-- Angle.cos (lines 65-67): np.real(self.complex). -/
def cos (s : Angle) : ℝ := s.complex.re

/-- Angle.tan (lines 68-70): np.tan(self.radian). -/
noncomputable def tan (s : Angle) : ℝ := Real.tan s.radian

/-- Angle.sdegree (lines 81-83):
self.degree if self.degree < 180 else self.degree - 360. -/
noncomputable def sdegree (s : Angle) : ℝ :=
  if s.degree < 180 then s.degree else s.degree - 360

/-- Angle.sradian (lines 84-86):
self.radian if self.radian < np.pi else self.radian - 2*np.pi. -/
noncomputable def sradian (s : Angle) : ℝ :=
  if s.radian < Real.pi then s.radian else s.radian - 2 * Real.pi

/-- Angle.sinh (lines 71-73): np.sinh(self.sradian). -/
noncomputable def sinh (s : Angle) : ℝ := Real.sinh (sradian s)

/-- Angle.cosh (lines 74-76): np.cosh(self.sradian). -/
noncomputable def cosh (s : Angle) : ℝ := Real.cosh (sradian s)

/-- Angle.tanh (lines 77-79): np.tanh(self.sradian). -/
noncomputable def tanh (s : Angle) : ℝ := Real.tanh (sradian s)

/-- Angle.frac (lines 88-90): self.radian / (2 pi). -/
noncomputable def frac (s : Angle) : ℝ := s.radian / (2 * Real.pi)

/-- The Angle.degree property getter (lines 30-32). -/
def degreeProp (s : Angle) : ℝ := s.degree

/-- The Angle.radian property getter (lines 40-42). -/
def radianProp (s : Angle) : ℝ := s.radian

/-- The Angle.complex property getter (lines 50-52). -/
def complexProp (s : Angle) : ℂ := s.complex

/-- Angle.__add__ with an Angle operand (lines 92-97):
Angle(deg = value.degree + self.degree). -/
noncomputable def add (self value : Angle) : Angle :=
  angleInit (some (value.degree + self.degree)) none none

/-- Angle.__add__ with a scalar operand (lines 92-97):
Angle(deg = value + self.degree). -/
noncomputable def addScalar (self : Angle) (value : ℝ) : Angle :=
  angleInit (some (value + self.degree)) none none

/-- Angle.__sub__ with an Angle operand (lines 99-104):
Angle(deg = value.degree - self.degree).  Note the swapped augend. -/
noncomputable def sub (self value : Angle) : Angle :=
  angleInit (some (value.degree - self.degree)) none none

/-- Angle.__sub__ with a scalar operand (lines 99-104):
Angle(deg = value - self.degree). -/
noncomputable def subScalar (self : Angle) (value : ℝ) : Angle :=
  angleInit (some (value - self.degree)) none none

/-- Angle.__neg__ (lines 106-107):
Angle(complex = np.conjugate(self.complex)). -/
noncomputable def neg (self : Angle) : Angle :=
  angleInit none none (some ((starRingEnd ℂ) self.complex))

/-- Angle.__eq__ (lines 109-118) with a scalar right operand, over the
reals (the rational-degree version is DegModel.eqQ):
diff = abs(value - self.degree); if diff > 359: diff -= 360;
np.isclose(diff, 0, rtol=1e-12) with the numpy default atol=1e-8. -/
noncomputable def eqVal (self : Angle) (value : ℝ) : Prop :=
  let diff := |value - self.degree|
  let diff2 := if 359 < diff then diff - 360 else diff
  |diff2 - 0| ≤ 1e-8 + 1e-12 * |(0 : ℝ)|

/-- Angle.__eq__ (lines 109-118) with an Angle right operand. -/
noncomputable def eqAngle (self value : Angle) : Prop := eqVal self value.degree

/-- Angle.__abs__ (lines 155-158):
-self if np.imag(self.complex) < 0 else self. -/
noncomputable def absAngle (self : Angle) : Angle :=
  if self.complex.im < 0 then neg self else self

/-- mean_angle (src/angles_utility.py lines 162-177).  The isinstance
filter keeps every element of a typed List Angle; a zero retained count
makes "sum_of_angles / number_of_elements" raise ZeroDivisionError,
modelled as none.  Otherwise the result is Angle(complex = sum / count),
whose truthiness dispatch silently defaults to degree 0 when the summed
vector is exactly zero. -/
noncomputable def mean_angle (angle_list : List Angle) : Option Angle :=
  if angle_list.length = 0 then none
  else some (angleInit none none
    (some ((angle_list.map (fun a => a.complex)).sum / (angle_list.length : ℂ))))

/-- The per-candidate total distance of geometric_median
(src/angles_utility.py line 207): sum((abs(angle - c)).degree for c in
angle_list), for the candidate angle. -/
noncomputable def cost (angle_list : List Angle) (angle : Angle) : ℝ :=
  (angle_list.map (fun c => (absAngle (sub angle c)).degree)).sum

/-- geometric_median (src/angles_utility.py lines 199-211):
distances = [cost of each angle]; min_value = min(distances) (ValueError on
an empty list, modelled as none); the candidates kept by index are exactly
the list elements whose cost equals min_value (the cost depends only on the
element value); the result is mean_angle of the kept candidates. -/
noncomputable def geometric_median (angle_list : List Angle) : Option Angle :=
  match (angle_list.map (cost angle_list)).min? with
  | none => none
  | some min_value => mean_angle (angle_list.filter (fun a => cost angle_list a = min_value))

end AU

/-!
The second copy of the class (src/angles.py).  Its instance state has the
same three fields, so the copies share the state type AU.Angle; every
member body below is transcribed from angles.py.  All member bodies are
character-identical to the angles_utility.py copy except sradian (angles.py
line 67 compares self.degree, not self.radian, against np.pi); sinh, cosh
and tanh read the same source text but resolve to this copy of sradian.
-/

namespace APy

/-- The Angle.degree setter (src/angles.py lines 15-19). -/
noncomputable def degreeSet (value : ℝ) : AU.Angle :=
  let d := fmod value 360
  ⟨d, deg2rad d, rect 1 (deg2rad d)⟩

/-- The Angle.radian setter (src/angles.py lines 25-29). -/
noncomputable def radianSet (value : ℝ) : AU.Angle :=
  let r := fmod value (2 * Real.pi)
  ⟨rad2deg r, r, rect 1 r⟩

/-- The Angle.complex setter (src/angles.py lines 35-41). -/
noncomputable def complexSet (value : ℂ) : AU.Angle :=
  let r := Complex.abs value
  let rad := fmod (Complex.arg value) (2 * Real.pi)
  ⟨rad2deg rad, rad, value / (r : ℂ)⟩

/-- Angle.__init__ (src/angles.py lines 5-9). -/
noncomputable def angleInit (deg rad : Option ℝ) (cseed : Option ℂ) : AU.Angle :=
  if pyTruthyC cseed then complexSet (cseed.getD 0)
  else if pyTruthyR rad then radianSet (rad.getD 0)
  else if pyTruthyR deg then degreeSet (deg.getD 0)
  else degreeSet 0

/-- Angle.sin (src/angles.py lines 43-45). -/
def sin (s : AU.Angle) : ℝ := s.complex.im

/-- Angle.cos (src/angles.py lines 46-48). -/
def cos (s : AU.Angle) : ℝ := s.complex.re

/-- Angle.tan (src/angles.py lines 49-51). -/
noncomputable def tan (s : AU.Angle) : ℝ := Real.tan s.radian

/-- Angle.sdegree (src/angles.py lines 62-64). -/
noncomputable def sdegree (s : AU.Angle) : ℝ :=
  if s.degree < 180 then s.degree else s.degree - 360

/-- Angle.sradian (src/angles.py lines 65-67):
self.radian if self.degree < np.pi else self.radian - 2*np.pi.
This is the one member whose body differs between the two copies: the
condition compares the DEGREE value against np.pi. -/
noncomputable def sradian (s : AU.Angle) : ℝ :=
  if s.degree < Real.pi then s.radian else s.radian - 2 * Real.pi

/-- Angle.sinh (src/angles.py lines 52-54): np.sinh(self.sradian),
resolving to this copy of sradian. -/
noncomputable def sinh (s : AU.Angle) : ℝ := Real.sinh (sradian s)

/-- Angle.cosh (src/angles.py lines 55-57). -/
noncomputable def cosh (s : AU.Angle) : ℝ := Real.cosh (sradian s)

/-- Angle.tanh (src/angles.py lines 58-60). -/
noncomputable def tanh (s : AU.Angle) : ℝ := Real.tanh (sradian s)

/-- The Angle.degree property getter (src/angles.py lines 11-13). -/
def degreeProp (s : AU.Angle) : ℝ := s.degree

/-- The Angle.radian property getter (src/angles.py lines 21-23). -/
def radianProp (s : AU.Angle) : ℝ := s.radian

/-- The Angle.complex property getter (src/angles.py lines 31-33). -/
def complexProp (s : AU.Angle) : ℂ := s.complex

/-- Angle.__add__ with an Angle operand (src/angles.py lines 69-74). -/
noncomputable def add (self value : AU.Angle) : AU.Angle :=
  angleInit (some (value.degree + self.degree)) none none

/-- Angle.__add__ with a scalar operand (src/angles.py lines 69-74). -/
noncomputable def addScalar (self : AU.Angle) (value : ℝ) : AU.Angle :=
  angleInit (some (value + self.degree)) none none

/-- Angle.__sub__ with an Angle operand (src/angles.py lines 76-81). -/
noncomputable def sub (self value : AU.Angle) : AU.Angle :=
  angleInit (some (value.degree - self.degree)) none none

/-- Angle.__sub__ with a scalar operand (src/angles.py lines 76-81). -/
noncomputable def subScalar (self : AU.Angle) (value : ℝ) : AU.Angle :=
  angleInit (some (value - self.degree)) none none

/-- Angle.__neg__ (src/angles.py lines 83-84). -/
noncomputable def neg (self : AU.Angle) : AU.Angle :=
  angleInit none none (some ((starRingEnd ℂ) self.complex))

/-- Angle.__eq__ (src/angles.py lines 86-95) with a scalar right operand. -/
noncomputable def eqVal (self : AU.Angle) (value : ℝ) : Prop :=
  let diff := |value - self.degree|
  let diff2 := if 359 < diff then diff - 360 else diff
  |diff2 - 0| ≤ 1e-8 + 1e-12 * |(0 : ℝ)|

/-- Angle.__eq__ (src/angles.py lines 86-95) with an Angle right operand. -/
noncomputable def eqAngle (self value : AU.Angle) : Prop := eqVal self value.degree

end APy

/-- The representation invariant claimed for every observable Angle
(spec section 3): canonical degree range, canonical radian range, the
radian view recomputed from the degree view, and a stored unit vector of
magnitude 1 pointing in direction radian. -/
noncomputable def AngleInv (s : AU.Angle) : Prop :=
  0 ≤ s.degree ∧ s.degree < 360 ∧
  0 ≤ s.radian ∧ s.radian < 2 * Real.pi ∧
  s.radian = deg2rad s.degree ∧
  Complex.abs s.complex = 1 ∧
  s.complex = rect 1 s.radian

/-- The Angle states observable through the public surface of
src/angles_utility.py: any construction (degree, radian or vector seed,
including the no-seed default) and any of the operations add, subtract
(both operand kinds), negate, absolute value and mean_angle. -/
inductive Reachable : AU.Angle → Prop
  | ofInit (deg rad : Option ℝ) (cseed : Option ℂ) :
      Reachable (AU.angleInit deg rad cseed)
  | ofAdd {a b : AU.Angle} : Reachable a → Reachable b → Reachable (AU.add a b)
  | ofAddScalar {a : AU.Angle} (v : ℝ) : Reachable a → Reachable (AU.addScalar a v)
  | ofSub {a b : AU.Angle} : Reachable a → Reachable b → Reachable (AU.sub a b)
  | ofSubScalar {a : AU.Angle} (v : ℝ) : Reachable a → Reachable (AU.subScalar a v)
  | ofNeg {a : AU.Angle} : Reachable a → Reachable (AU.neg a)
  | ofAbs {a : AU.Angle} : Reachable a → Reachable (AU.absAngle a)
  | ofMean {l : List AU.Angle} {s : AU.Angle} :
      AU.mean_angle l = some s → Reachable s

/-- Claim-side definition for C4, following the words of the specification:
the total cost of a candidate c is the sum over every element e of the list
of (abs(e - c)).degree. -/
noncomputable def costSpec (angle_list : List AU.Angle) (c : AU.Angle) : ℝ :=
  (angle_list.map (fun e => (AU.absAngle (AU.sub e c)).degree)).sum

/-! Helper lemmas about the analytic layer. -/

theorem rect_one_eq_exp (phi : ℝ) :
    rect 1 phi = Complex.exp ((phi : ℂ) * Complex.I) := by
  simp [rect]

theorem abs_rect_one (phi : ℝ) : Complex.abs (rect 1 phi) = 1 := by
  rw [rect_one_eq_exp]
  exact Complex.abs_exp_ofReal_mul_I phi

theorem exp_I_sub_two_pi (r : ℝ) :
    Complex.exp (((r - 2 * Real.pi : ℝ) : ℂ) * Complex.I) =
      Complex.exp ((r : ℂ) * Complex.I) := by
  have h : ((r - 2 * Real.pi : ℝ) : ℂ) * Complex.I =
      (r : ℂ) * Complex.I - 2 * (Real.pi : ℂ) * Complex.I := by
    push_cast
    ring
  rw [h, Complex.exp_sub, Complex.exp_two_pi_mul_I, div_one]

theorem arg_exp_I_of_Ioc {r : ℝ} (h0 : -Real.pi < r) (h1 : r ≤ Real.pi) :
    Complex.arg (Complex.exp ((r : ℂ) * Complex.I)) = r := by
  rw [Complex.exp_mul_I]
  exact Complex.arg_cos_add_sin_mul_I ⟨h0, h1⟩

theorem arg_exp_I_high {r : ℝ} (h0 : Real.pi < r) (h1 : r < 2 * Real.pi) :
    Complex.arg (Complex.exp ((r : ℂ) * Complex.I)) = r - 2 * Real.pi := by
  rw [← exp_I_sub_two_pi]
  exact arg_exp_I_of_Ioc (by linarith) (by linarith)

theorem fmod_arg_exp {r : ℝ} (h0 : 0 ≤ r) (h1 : r < 2 * Real.pi) :
    fmod (Complex.arg (Complex.exp ((r : ℂ) * Complex.I))) (2 * Real.pi) = r := by
  have hpi : 0 < Real.pi := Real.pi_pos
  by_cases h : r ≤ Real.pi
  · rw [arg_exp_I_of_Ioc (by linarith) h]
    exact fmod_eq_self h0 h1
  · push_neg at h
    rw [arg_exp_I_high h h1]
    have := fmod_of_neg (x := r - 2 * Real.pi) (y := 2 * Real.pi)
      (by linarith) (by linarith) (by linarith)
    rw [this]
    ring

theorem deg2rad_nonneg {d : ℝ} (h : 0 ≤ d) : 0 ≤ deg2rad d :=
  mul_nonneg h (by positivity)

theorem deg2rad_lt_two_pi {d : ℝ} (h : d < 360) : deg2rad d < 2 * Real.pi := by
  have hpi : 0 < Real.pi / 180 := by positivity
  calc deg2rad d = d * (Real.pi / 180) := rfl
    _ < 360 * (Real.pi / 180) := (mul_lt_mul_right hpi).mpr h
    _ = 2 * Real.pi := by ring

theorem rad2deg_deg2rad (d : ℝ) : rad2deg (deg2rad d) = d := by
  have hpi : Real.pi ≠ 0 := Real.pi_ne_zero
  rw [deg2rad, rad2deg]
  field_simp

theorem deg2rad_rad2deg (r : ℝ) : deg2rad (rad2deg r) = r := by
  have hpi : Real.pi ≠ 0 := Real.pi_ne_zero
  rw [deg2rad, rad2deg]
  field_simp

theorem rad2deg_nonneg {r : ℝ} (h : 0 ≤ r) : 0 ≤ rad2deg r :=
  mul_nonneg h (by positivity)

theorem rad2deg_lt_360 {r : ℝ} (h : r < 2 * Real.pi) : rad2deg r < 360 := by
  have hpi : 0 < 180 / Real.pi := by positivity
  calc rad2deg r = r * (180 / Real.pi) := rfl
    _ < 2 * Real.pi * (180 / Real.pi) := (mul_lt_mul_right hpi).mpr h
    _ = 360 := by
        rw [mul_assoc, ← mul_div_assoc, mul_div_cancel_left₀ _ Real.pi_ne_zero]
        norm_num

theorem inv_degreeSet (v : ℝ) : AngleInv (AU.degreeSet v) := by
  have h0 : 0 ≤ fmod v 360 := fmod_nonneg v (by norm_num)
  have h1 : fmod v 360 < 360 := fmod_lt v (by norm_num)
  exact ⟨h0, h1, deg2rad_nonneg h0, deg2rad_lt_two_pi h1, rfl,
    abs_rect_one _, rfl⟩

theorem inv_radianSet (v : ℝ) : AngleInv (AU.radianSet v) := by
  have hpi : 0 < 2 * Real.pi := by positivity
  have h0 : 0 ≤ fmod v (2 * Real.pi) := fmod_nonneg v hpi
  have h1 : fmod v (2 * Real.pi) < 2 * Real.pi := fmod_lt v hpi
  exact ⟨rad2deg_nonneg h0, rad2deg_lt_360 h1, h0, h1,
    (deg2rad_rad2deg _).symm, abs_rect_one _, rfl⟩

theorem inv_complexSet {z : ℂ} (hz : z ≠ 0) : AngleInv (AU.complexSet z) := by
  have hpi : 0 < 2 * Real.pi := by positivity
  have h0 : 0 ≤ fmod (Complex.arg z) (2 * Real.pi) := fmod_nonneg _ hpi
  have h1 : fmod (Complex.arg z) (2 * Real.pi) < 2 * Real.pi := fmod_lt _ hpi
  have habs : Complex.abs z ≠ 0 := by
    simpa [Complex.abs.eq_zero] using hz
  refine ⟨rad2deg_nonneg h0, rad2deg_lt_360 h1, h0, h1,
    (deg2rad_rad2deg _).symm, ?_, ?_⟩
  · show Complex.abs (z / ((Complex.abs z : ℝ) : ℂ)) = 1
    rw [map_div₀, Complex.abs_ofReal, abs_of_nonneg (Complex.abs.nonneg z),
      div_self habs]
  · show z / ((Complex.abs z : ℝ) : ℂ) = rect 1 (fmod (Complex.arg z) (2 * Real.pi))
    have hz' : z = (Complex.abs z : ℂ) * Complex.exp ((Complex.arg z : ℂ) * Complex.I) :=
      (Complex.abs_mul_exp_arg_mul_I z).symm
    have hexp : Complex.exp (((fmod (Complex.arg z) (2 * Real.pi) : ℝ) : ℂ) * Complex.I) =
        Complex.exp ((Complex.arg z : ℂ) * Complex.I) := by
      have hfl : (fmod (Complex.arg z) (2 * Real.pi) : ℝ) =
          Complex.arg z - 2 * Real.pi * (⌊Complex.arg z / (2 * Real.pi)⌋ : ℝ) := by
        rw [fmod]
      rw [hfl]
      have hsplit : ((Complex.arg z - 2 * Real.pi * (⌊Complex.arg z / (2 * Real.pi)⌋ : ℝ) : ℝ) : ℂ)
          * Complex.I =
          (Complex.arg z : ℂ) * Complex.I -
            (⌊Complex.arg z / (2 * Real.pi)⌋ : ℂ) * (2 * (Real.pi : ℂ) * Complex.I) := by
        push_cast
        ring
      rw [hsplit, Complex.exp_sub, Complex.exp_int_mul_two_pi_mul_I, div_one]
    have hcast : ((Complex.abs z : ℝ) : ℂ) ≠ 0 := by
      exact_mod_cast habs
    rw [rect_one_eq_exp, hexp, div_eq_iff hcast]
    conv_lhs => rw [hz']
    ring

theorem inv_angleInit (deg rad : Option ℝ) (cseed : Option ℂ) :
    AngleInv (AU.angleInit deg rad cseed) := by
  unfold AU.angleInit
  split_ifs with h1 h2 h3
  · match cseed, h1 with
    | some z, h1 => exact inv_complexSet h1
  · exact inv_radianSet _
  · exact inv_degreeSet _
  · exact inv_degreeSet 0

theorem angleInit_some_deg (d : ℝ) :
    AU.angleInit (some d) none none = AU.degreeSet d := by
  unfold AU.angleInit
  by_cases hd : d = 0
  · subst hd
    rw [if_neg (by simp [pyTruthyC]), if_neg (by simp [pyTruthyR]),
      if_neg (by simp [pyTruthyR])]
  · rw [if_neg (by simp [pyTruthyC]), if_neg (by simp [pyTruthyR]),
      if_pos (by simpa [pyTruthyR] using hd)]
    rfl

theorem angleInit_cseed {z : ℂ} (hz : z ≠ 0) :
    AU.angleInit none none (some z) = AU.complexSet z := by
  unfold AU.angleInit
  rw [if_pos (by simpa [pyTruthyC] using hz)]
  rfl

/-- C2: every Angle observable after any construction (degree, radian or
vector seed) or any of the operations add, subtract, negate, absolute value
and mean_angle satisfies the representation invariant: degree in [0, 360),
radian in [0, 2 pi) equal to deg2rad(degree), and a stored unit vector of
magnitude 1 pointing in direction radian (so its principal argument agrees
with radian up to the 2 pi period). -/
theorem angle_invariant :
    ∀ s : AU.Angle, Reachable s →
      AngleInv s ∧ (Complex.arg s.complex = s.radian ∨
        Complex.arg s.complex = s.radian - 2 * Real.pi) := by
  have harg : ∀ s : AU.Angle, AngleInv s →
      Complex.arg s.complex = s.radian ∨
        Complex.arg s.complex = s.radian - 2 * Real.pi := by
    intro s hs
    obtain ⟨-, -, hr0, hr1, -, -, hcplx⟩ := hs
    rw [hcplx, rect_one_eq_exp]
    by_cases h : s.radian ≤ Real.pi
    · left
      exact arg_exp_I_of_Ioc (by linarith [Real.pi_pos]) h
    · right
      push_neg at h
      exact arg_exp_I_high h hr1
  intro s h
  have hinv : AngleInv s := by
    induction h with
    | ofInit deg rad cseed => exact inv_angleInit deg rad cseed
    | ofAdd _ _ _ _ => exact inv_angleInit _ _ _
    | ofAddScalar v _ _ => exact inv_angleInit _ _ _
    | ofSub _ _ _ _ => exact inv_angleInit _ _ _
    | ofSubScalar v _ _ => exact inv_angleInit _ _ _
    | ofNeg _ _ => exact inv_angleInit _ _ _
    | ofAbs _ ih =>
        unfold AU.absAngle
        split_ifs
        · exact inv_angleInit _ _ _
        · exact ih
    | ofMean hm =>
        unfold AU.mean_angle at hm
        split_ifs at hm
        injection hm with hm
        rw [← hm]
        exact inv_angleInit _ _ _
  exact ⟨hinv, harg s hinv⟩

/-- Witness for C2 at a concrete reachable state. -/
theorem angle_invariant_witness :
    AngleInv (AU.angleInit (some 5) none none) ∧
      (Complex.arg (AU.angleInit (some 5) none none).complex =
          (AU.angleInit (some 5) none none).radian ∨
        Complex.arg (AU.angleInit (some 5) none none).complex =
          (AU.angleInit (some 5) none none).radian - 2 * Real.pi) :=
  angle_invariant _ (Reachable.ofInit (some 5) none none)

theorem angleInit_zero_cseed : AU.angleInit none none (some 0) = AU.degreeSet 0 := by
  unfold AU.angleInit
  rw [if_neg (by simp [pyTruthyC]), if_neg (by simp [pyTruthyR]),
    if_neg (by simp [pyTruthyR])]

theorem degreeSet_zero_degree : (AU.degreeSet 0).degree = 0 := by
  show fmod (0 : ℝ) 360 = 0
  exact fmod_zero_left (by norm_num)

theorem degreeSet_zero_complex : (AU.degreeSet 0).complex = 1 := by
  show rect 1 (deg2rad (fmod (0 : ℝ) 360)) = 1
  rw [fmod_zero_left (by norm_num : (0 : ℝ) < 360)]
  have h : deg2rad 0 = 0 := by simp [deg2rad]
  rw [h, rect_one_eq_exp]
  simp

theorem degreeSet_180_complex : (AU.degreeSet 180).complex = -1 := by
  show rect 1 (deg2rad (fmod (180 : ℝ) 360)) = -1
  rw [fmod_eq_self (by norm_num) (by norm_num)]
  have h : deg2rad 180 = Real.pi := by
    unfold deg2rad
    ring
  rw [h, rect_one_eq_exp, Complex.exp_pi_mul_I]

/-- C3: on exact cancellation the code does NOT raise an AmbiguousMean
error.  At the failing input mean_angle([Angle(deg=0), Angle(deg=180)]) the
summed unit vectors are exactly zero, the zero complex seed is falsy in
Angle.__init__, and mean_angle silently returns the well-formed angle of
degree 0.  (No AmbiguousMean error exists anywhere in the code; the
"if r==0" line of the complex setter is never even reached from here.) -/
theorem mean_antipodal_returns_zero_angle :
    AU.mean_angle [AU.degreeSet 0, AU.degreeSet 180] = some (AU.degreeSet 0) ∧
      (AU.degreeSet 0).degree = 0 := by
  refine ⟨?_, degreeSet_zero_degree⟩
  unfold AU.mean_angle
  rw [if_neg (by simp)]
  congr 1
  have hsum : ([AU.degreeSet 0, AU.degreeSet 180].map (fun a => a.complex)).sum = 0 := by
    simp [degreeSet_zero_complex, degreeSet_180_complex]
  rw [hsum]
  norm_num
  exact angleInit_zero_cseed

/-- C7: constructing an Angle from the zero complex seed does NOT raise an
UndefinedAngle error.  The zero vector is falsy, so the truthiness dispatch
of Angle.__init__ skips the complex branch entirely and silently produces
the well-formed default angle of degree 0.  (No UndefinedAngle error exists
anywhere in the code.) -/
theorem zero_vector_seed_returns_zero_angle :
    AU.angleInit none none (some 0) = AU.degreeSet 0 ∧
      AngleInv (AU.angleInit none none (some 0)) ∧
      (AU.angleInit none none (some 0)).degree = 0 := by
  refine ⟨angleInit_zero_cseed, inv_angleInit none none (some 0), ?_⟩
  rw [angleInit_zero_cseed]
  exact degreeSet_zero_degree

theorem rect_one_im (phi : ℝ) : (rect 1 phi).im = Real.sin phi := by
  rw [rect_one_eq_exp]
  exact Complex.exp_ofReal_mul_I_im phi

theorem deg2rad_le_pi {m : ℝ} (h : m ≤ 180) : deg2rad m ≤ Real.pi := by
  have hpi : 0 < Real.pi / 180 := by positivity
  calc deg2rad m = m * (Real.pi / 180) := rfl
    _ ≤ 180 * (Real.pi / 180) := mul_le_mul_of_nonneg_right h hpi.le
    _ = Real.pi := by ring

theorem pi_lt_deg2rad {m : ℝ} (h : 180 < m) : Real.pi < deg2rad m := by
  have hpi : 0 < Real.pi / 180 := by positivity
  calc Real.pi = 180 * (Real.pi / 180) := by ring
    _ < m * (Real.pi / 180) := (mul_lt_mul_right hpi).mpr h
    _ = deg2rad m := rfl

theorem sin_deg2rad_neg {m : ℝ} (h0 : 180 < m) (h1 : m < 360) :
    Real.sin (deg2rad m) < 0 := by
  have hr0 : Real.pi < deg2rad m := pi_lt_deg2rad h0
  have hr1 : deg2rad m < 2 * Real.pi := deg2rad_lt_two_pi h1
  have hs : Real.sin (deg2rad m) = -Real.sin (deg2rad m - Real.pi) := by
    have h := Real.sin_add (deg2rad m - Real.pi) Real.pi
    rw [sub_add_cancel, Real.sin_pi, Real.cos_pi] at h
    rw [h]
    ring
  have hpos : 0 < Real.sin (deg2rad m - Real.pi) :=
    Real.sin_pos_of_pos_of_lt_pi (by linarith) (by linarith)
  rw [hs]
  linarith

theorem absAngle_degreeSet_low {x : ℝ} (h : fmod x 360 ≤ 180) :
    AU.absAngle (AU.degreeSet x) = AU.degreeSet x := by
  have hc : (AU.degreeSet x).complex = rect 1 (deg2rad (fmod x 360)) := rfl
  have hge : 0 ≤ (AU.degreeSet x).complex.im := by
    rw [hc, rect_one_im]
    exact Real.sin_nonneg_of_nonneg_of_le_pi
      (deg2rad_nonneg (fmod_nonneg x (by norm_num))) (deg2rad_le_pi h)
  unfold AU.absAngle
  rw [if_neg (not_lt.mpr hge)]

theorem conj_rect_one (phi : ℝ) :
    (starRingEnd ℂ) (rect 1 phi) = Complex.exp (((-phi : ℝ) : ℂ) * Complex.I) := by
  rw [rect_one_eq_exp, ← Complex.exp_conj]
  congr 1
  rw [map_mul, Complex.conj_ofReal, Complex.conj_I]
  push_cast
  ring

theorem absAngle_degreeSet_high {x : ℝ} (h : 180 < fmod x 360) :
    (AU.absAngle (AU.degreeSet x)).degree = 360 - fmod x 360 := by
  have hm1 : fmod x 360 < 360 := fmod_lt x (by norm_num)
  have hth0 : Real.pi < deg2rad (fmod x 360) := pi_lt_deg2rad h
  have hth1 : deg2rad (fmod x 360) < 2 * Real.pi := deg2rad_lt_two_pi hm1
  have hc : (AU.degreeSet x).complex = rect 1 (deg2rad (fmod x 360)) := rfl
  have hlt : (AU.degreeSet x).complex.im < 0 := by
    rw [hc, rect_one_im]
    exact sin_deg2rad_neg h hm1
  unfold AU.absAngle
  rw [if_pos hlt]
  show (AU.neg (AU.degreeSet x)).degree = 360 - fmod x 360
  unfold AU.neg
  rw [hc, conj_rect_one]
  rw [angleInit_cseed (Complex.exp_ne_zero _)]
  show rad2deg (fmod (Complex.arg
      (Complex.exp (((-(deg2rad (fmod x 360)) : ℝ) : ℂ) * Complex.I))) (2 * Real.pi))
    = 360 - fmod x 360
  have harg : (2 * Real.pi - deg2rad (fmod x 360)) - 2 * Real.pi
      = -(deg2rad (fmod x 360)) := by ring
  rw [← harg, exp_I_sub_two_pi,
    fmod_arg_exp (by linarith) (by linarith [Real.pi_pos])]
  have hdeg : 2 * Real.pi - deg2rad (fmod x 360) = deg2rad (360 - fmod x 360) := by
    unfold deg2rad
    ring
  rw [hdeg, rad2deg_deg2rad]

theorem sub_eq_degreeSet (a c : AU.Angle) :
    AU.sub a c = AU.degreeSet (c.degree - a.degree) := by
  unfold AU.sub
  exact angleInit_some_deg _

theorem absAngle_sub_degree (a c : AU.Angle) :
    (AU.absAngle (AU.sub a c)).degree =
      if 180 < fmod (c.degree - a.degree) 360
      then 360 - fmod (c.degree - a.degree) 360
      else fmod (c.degree - a.degree) 360 := by
  rw [sub_eq_degreeSet]
  split_ifs with h
  · exact absAngle_degreeSet_high h
  · rw [absAngle_degreeSet_low (not_lt.mp h)]
    rfl

theorem halfdist_neg (x : ℝ) :
    (if 180 < fmod (-x) 360 then 360 - fmod (-x) 360 else fmod (-x) 360) =
      (if 180 < fmod x 360 then 360 - fmod x 360 else fmod x 360) := by
  have h0 : 0 ≤ fmod x 360 := fmod_nonneg x (by norm_num)
  have h1 : fmod x 360 < 360 := fmod_lt x (by norm_num)
  rw [fmod_neg_eq (by norm_num : (0:ℝ) < 360)]
  by_cases hz : fmod x 360 = 0
  · rw [if_pos hz, hz]
  · rw [if_neg hz]
    split_ifs with ha hb hc
    · linarith
    · ring
    · rfl
    · push_neg at ha hc
      linarith

theorem cost_eq_costSpec (l : List AU.Angle) (a : AU.Angle) :
    AU.cost l a = costSpec l a := by
  unfold AU.cost costSpec
  congr 1
  apply List.map_congr_left
  intro c _
  rw [absAngle_sub_degree, absAngle_sub_degree]
  have hx : a.degree - c.degree = -(c.degree - a.degree) := by ring
  rw [hx, halfdist_neg]

theorem complexSet_inv {a : AU.Angle} (h : AngleInv a) : AU.complexSet a.complex = a := by
  obtain ⟨hd0, hd1, hr0, hr1, hrad, habs, hcplx⟩ := h
  have harg : fmod (Complex.arg a.complex) (2 * Real.pi) = a.radian := by
    conv_lhs => rw [hcplx, rect_one_eq_exp]
    exact fmod_arg_exp hr0 hr1
  have hdeg : rad2deg a.radian = a.degree := by
    rw [hrad, rad2deg_deg2rad]
  unfold AU.complexSet
  show AU.Angle.mk (rad2deg (fmod (Complex.arg a.complex) (2 * Real.pi)))
      (fmod (Complex.arg a.complex) (2 * Real.pi))
      (a.complex / ((Complex.abs a.complex : ℝ) : ℂ)) = a
  rw [harg, hdeg, habs, Complex.ofReal_one, div_one]

theorem mean_angle_singleton {a : AU.Angle} (h : AngleInv a) :
    AU.mean_angle [a] = some a := by
  have hz : a.complex ≠ 0 := by
    intro h0
    have habs := h.2.2.2.2.2.1
    rw [h0] at habs
    simp at habs
  unfold AU.mean_angle
  rw [if_neg (by simp)]
  congr 1
  have hsum : (([a] : List AU.Angle).map (fun x => x.complex)).sum = a.complex := by
    simp
  have hlen : ((([a] : List AU.Angle).length : ℕ) : ℂ) = 1 := by simp
  rw [hsum, hlen, div_one, angleInit_cseed hz, complexSet_inv h]

/-- C4: for every non-empty list of invariant-satisfying angles,
geometric_median selects the candidates whose total cost (the sum over all
elements e of (abs(e - c)).degree, equal by symmetry of the circular
half-distance to the cost the code computes) achieves the list minimum,
returns mean_angle of exactly the tied candidates, and when the tie set is
a single candidate it returns exactly that candidate. -/
theorem geometric_median_spec :
    ∀ l : List AU.Angle, l ≠ [] → (∀ a ∈ l, AngleInv a) →
      ∃ m : ℝ, (l.map (costSpec l)).min? = some m ∧
        AU.geometric_median l = AU.mean_angle (l.filter (fun c => costSpec l c = m)) ∧
        ∀ a : AU.Angle, l.filter (fun c => costSpec l c = m) = [a] →
          AU.geometric_median l = some a := by
  intro l hne hinv
  have hmap : l.map (AU.cost l) = l.map (costSpec l) :=
    List.map_congr_left (fun a _ => cost_eq_costSpec l a)
  have hsome : (l.map (costSpec l)).min? ≠ none := by
    intro h
    rw [List.min?_eq_none_iff, List.map_eq_nil] at h
    exact hne h
  cases hmm : (l.map (costSpec l)).min? with
  | none => exact absurd hmm hsome
  | some m =>
    have hgm : AU.geometric_median l =
        AU.mean_angle (l.filter (fun c => costSpec l c = m)) := by
      unfold AU.geometric_median
      rw [hmap, hmm]
      show AU.mean_angle (l.filter (fun a => AU.cost l a = m)) =
        AU.mean_angle (l.filter (fun c => costSpec l c = m))
      congr 1
      apply List.filter_congr
      intro x _
      simp [cost_eq_costSpec]
    refine ⟨m, rfl, hgm, ?_⟩
    intro a hfil
    have ha_mem : a ∈ l :=
      List.mem_of_mem_filter (by rw [hfil]; exact List.mem_singleton_self a)
    rw [hgm, hfil]
    exact mean_angle_singleton (hinv a ha_mem)

/-- Witness for C4 at a concrete input. -/
theorem geometric_median_spec_witness :
    ∃ m : ℝ, (([AU.degreeSet 0]).map (costSpec [AU.degreeSet 0])).min? = some m ∧
      AU.geometric_median [AU.degreeSet 0] =
        AU.mean_angle (([AU.degreeSet 0]).filter (fun c => costSpec [AU.degreeSet 0] c = m)) ∧
      ∀ a : AU.Angle,
        ([AU.degreeSet 0]).filter (fun c => costSpec [AU.degreeSet 0] c = m) = [a] →
          AU.geometric_median [AU.degreeSet 0] = some a :=
  geometric_median_spec [AU.degreeSet 0] (by simp)
    (by intro a ha; rw [List.mem_singleton] at ha; rw [ha]; exact inv_degreeSet 0)

theorem deg2rad_lt_pi {m : ℝ} (h : m < 180) : deg2rad m < Real.pi := by
  have hpi : 0 < Real.pi / 180 := by positivity
  calc deg2rad m = m * (Real.pi / 180) := rfl
    _ < 180 * (Real.pi / 180) := (mul_lt_mul_right hpi).mpr h
    _ = Real.pi := by ring

theorem pi_le_deg2rad {m : ℝ} (h : 180 ≤ m) : Real.pi ≤ deg2rad m := by
  have hpi : 0 < Real.pi / 180 := by positivity
  calc Real.pi = 180 * (Real.pi / 180) := by ring
    _ ≤ m * (Real.pi / 180) := mul_le_mul_of_nonneg_right h hpi.le
    _ = deg2rad m := rfl

theorem degreeSet_90_degree : (AU.degreeSet 90).degree = 90 := by
  show fmod (90 : ℝ) 360 = 90
  exact fmod_eq_self (by norm_num) (by norm_num)

theorem degreeSet_90_radian : (AU.degreeSet 90).radian = Real.pi / 2 := by
  show deg2rad (fmod (90 : ℝ) 360) = Real.pi / 2
  rw [fmod_eq_self (by norm_num) (by norm_num)]
  unfold deg2rad
  ring

/-- C6 counterexample: the two copies of the class are NOT behaviorally
equivalent on the whole shared surface.  On the angle of degree 90 the
angles.py copy of sradian (which compares self.degree, not self.radian,
against np.pi) returns -(3 pi)/2 while the angles_utility.py copy returns
pi/2; the strict inequality exhibits the disagreement. -/
theorem sradian_copies_differ :
    AU.sradian (AU.degreeSet 90) = Real.pi / 2 ∧
    APy.sradian (AU.degreeSet 90) = -(3 * Real.pi) / 2 ∧
    APy.sradian (AU.degreeSet 90) < AU.sradian (AU.degreeSet 90) := by
  have hpi : 0 < Real.pi := Real.pi_pos
  have hpi90 : Real.pi < 90 := by
    have h := Real.pi_lt_315
    linarith
  have hd : (AU.degreeSet 90).degree = 90 := degreeSet_90_degree
  have hr : (AU.degreeSet 90).radian = Real.pi / 2 := degreeSet_90_radian
  have h1 : AU.sradian (AU.degreeSet 90) = Real.pi / 2 := by
    unfold AU.sradian
    rw [hr, if_pos (by linarith)]
  have h2 : APy.sradian (AU.degreeSet 90) = -(3 * Real.pi) / 2 := by
    unfold APy.sradian
    rw [hd, hr, if_neg (by linarith)]
    ring
  exact ⟨h1, h2, by rw [h1, h2]; linarith⟩

/-- C6 amended: the two copies agree on construction from every seed and on
every shared member except sradian and the hyperbolic accessors computed
from it: degree, radian, complex, sin, cos, tan, sdegree, add, subtract,
negate and equals coincide on all inputs, while sradian (and hence sinh,
cosh, tanh) coincide exactly on the angles whose canonical state (radian =
deg2rad(degree)) has degree < pi or degree >= 180 — the angles.py copy
compares the degree, not the radian, against np.pi. -/
theorem angle_copies_equiv_amended :
    (∀ deg rad : Option ℝ, ∀ cseed : Option ℂ,
        APy.angleInit deg rad cseed = AU.angleInit deg rad cseed) ∧
    (∀ v : ℝ, APy.degreeSet v = AU.degreeSet v ∧ APy.radianSet v = AU.radianSet v) ∧
    (∀ z : ℂ, APy.complexSet z = AU.complexSet z) ∧
    (∀ s : AU.Angle, APy.degreeProp s = AU.degreeProp s ∧
        APy.radianProp s = AU.radianProp s ∧ APy.complexProp s = AU.complexProp s ∧
        APy.sin s = AU.sin s ∧ APy.cos s = AU.cos s ∧ APy.tan s = AU.tan s ∧
        APy.sdegree s = AU.sdegree s ∧ APy.neg s = AU.neg s) ∧
    (∀ s t : AU.Angle, APy.add s t = AU.add s t ∧ APy.sub s t = AU.sub s t ∧
        (APy.eqAngle s t ↔ AU.eqAngle s t)) ∧
    (∀ s : AU.Angle, ∀ v : ℝ, APy.addScalar s v = AU.addScalar s v ∧
        APy.subScalar s v = AU.subScalar s v ∧ (APy.eqVal s v ↔ AU.eqVal s v)) ∧
    (∀ s : AU.Angle, s.radian = deg2rad s.degree →
        (s.degree < Real.pi ∨ 180 ≤ s.degree) →
        APy.sradian s = AU.sradian s ∧ APy.sinh s = AU.sinh s ∧
        APy.cosh s = AU.cosh s ∧ APy.tanh s = AU.tanh s) := by
  refine ⟨fun _ _ _ => rfl, fun _ => ⟨rfl, rfl⟩, fun _ => rfl,
    fun _ => ⟨rfl, rfl, rfl, rfl, rfl, rfl, rfl, rfl⟩,
    fun _ _ => ⟨rfl, rfl, Iff.rfl⟩, fun _ _ => ⟨rfl, rfl, Iff.rfl⟩, ?_⟩
  intro s hrad hcase
  have hpi180 : Real.pi < 180 := by
    have h := Real.pi_lt_315
    linarith
  have hsr : APy.sradian s = AU.sradian s := by
    unfold APy.sradian AU.sradian
    rcases hcase with hlt | hge
    · have hr : s.radian < Real.pi := by
        rw [hrad]
        exact deg2rad_lt_pi (by linarith)
      rw [if_pos hlt, if_pos hr]
    · have hr : ¬(s.radian < Real.pi) := by
        rw [hrad]
        exact not_lt.mpr (pi_le_deg2rad hge)
      rw [if_neg (not_lt.mpr (by linarith)), if_neg hr]
  exact ⟨hsr, congrArg Real.sinh hsr, congrArg Real.cosh hsr, congrArg Real.tanh hsr⟩

/-- Witness for the amended C6 at a concrete state. -/
theorem angle_copies_equiv_witness :
    APy.sradian (AU.degreeSet 0) = AU.sradian (AU.degreeSet 0) ∧
    APy.sinh (AU.degreeSet 0) = AU.sinh (AU.degreeSet 0) ∧
    APy.cosh (AU.degreeSet 0) = AU.cosh (AU.degreeSet 0) ∧
    APy.tanh (AU.degreeSet 0) = AU.tanh (AU.degreeSet 0) :=
  angle_copies_equiv_amended.2.2.2.2.2.2 (AU.degreeSet 0) rfl
    (Or.inl (by rw [degreeSet_zero_degree]; exact Real.pi_pos))

/-- C8: subtraction builds the new angle from the raw degree difference
with the augend swapped: (a - b).degree = (b.degree - a.degree) % 360, and
for a bare scalar right operand (a - v).degree = (v - a.degree) % 360; the
normalized result lies in [0, 360). -/
theorem sub_augend_swapped :
    ∀ a b : AU.Angle,
      AU.sub a b = AU.degreeSet (b.degree - a.degree) ∧
      (AU.sub a b).degree = fmod (b.degree - a.degree) 360 ∧
      0 ≤ (AU.sub a b).degree ∧ (AU.sub a b).degree < 360 ∧
      ∀ v : ℝ, AU.subScalar a v = AU.degreeSet (v - a.degree) ∧
        (AU.subScalar a v).degree = fmod (v - a.degree) 360 := by
  intro a b
  have h1 := sub_eq_degreeSet a b
  refine ⟨h1, by rw [h1]; rfl, ?_, ?_, ?_⟩
  · rw [h1]
    exact fmod_nonneg _ (by norm_num)
  · rw [h1]
    exact fmod_lt _ (by norm_num)
  · intro v
    have h2 : AU.subScalar a v = AU.degreeSet (v - a.degree) := angleInit_some_deg _
    exact ⟨h2, by rw [h2]; rfl⟩

/-- C1 counterexample: equals is NOT equivalent to the folded difference
being within a relative tolerance of 1e-12 of zero.  At self degree 0 and
comparison value 1e-9 the code returns true (the numpy default absolute
tolerance 1e-8 dominates) while the relative-tolerance-of-zero test of the
claim is false (no nonzero value is within a relative tolerance of 0). -/
theorem eq_relative_tolerance_counterexample :
    DegModel.eqQ 0 (1 / 1000000000) = true ∧
    DegModel.specRelClose12Zero (DegModel.foldDiff 0 (1 / 1000000000)) = false := by
  constructor
  · norm_num [DegModel.eqQ, DegModel.np_isclose, DegModel.foldDiff,
      abs_of_nonneg, abs_of_nonpos]
  · norm_num [DegModel.specRelClose12Zero, DegModel.foldDiff,
      abs_of_nonneg, abs_of_nonpos]

/-- C1 amended: equals(a, b) returns true iff the absolute degree
difference, after the single near-360 fold, is within the numpy DEFAULT
ABSOLUTE tolerance 1e-8 of zero (np.isclose(diff, 0, rtol=1e-12) accepts
|diff| <= 1e-8 + 1e-12 * |0| = 1e-8, so the advertised relative term
vanishes against the zero reference); the two wraparound examples of the
claim hold as stated. -/
theorem eq_absolute_tolerance_amended :
    (∀ d v : ℚ, DegModel.eqQ d v = true ↔ |DegModel.foldDiff d v| ≤ 1e-8) ∧
    DegModel.eqQ 0 359.9999999999 = true ∧
    DegModel.eqQ 0 350 = false := by
  refine ⟨?_, ?_, ?_⟩
  · intro d v
    unfold DegModel.eqQ DegModel.np_isclose
    rw [decide_eq_true_eq]
    norm_num
  · norm_num [DegModel.eqQ, DegModel.np_isclose, DegModel.foldDiff,
      abs_of_nonneg, abs_of_nonpos]
  · norm_num [DegModel.eqQ, DegModel.np_isclose, DegModel.foldDiff,
      abs_of_nonneg, abs_of_nonpos]

/-- C10: the tolerance equality is not transitive (0 equals 9e-9 and 9e-9
equals 1.8e-8, but 0 does not equal 1.8e-8), so it is no equivalence
relation; and the equality-short-circuited comparisons are no total order:
two distinct canonical degrees each compare greater-or-equal to the other. -/
theorem eq_not_transitive :
    DegModel.eqQ 0 (9 / 1000000000) = true ∧
    DegModel.eqQ (9 / 1000000000) (18 / 1000000000) = true ∧
    DegModel.eqQ 0 (18 / 1000000000) = false ∧
    DegModel.geQ 0 (9 / 1000000000) = true ∧
    DegModel.geQ (9 / 1000000000) 0 = true ∧
    (0 : ℚ) < 9 / 1000000000 := by
  refine ⟨?_, ?_, ?_, ?_, ?_, by norm_num⟩ <;>
    norm_num [DegModel.eqQ, DegModel.geQ, DegModel.np_isclose, DegModel.foldDiff,
      abs_of_nonneg, abs_of_nonpos]

/-- C9 counterexample: greaterThan does NOT compare the claimed signed
degrees from (-180, 180].  At the canonical degrees 180 and 100 the code
returns false (its sdegree maps 180 to -180), while the angles are not
equal and the claimed (-180, 180] re-expressions compare 180 > 100. -/
theorem gt_at_180_counterexample :
    DegModel.gtQ 180 100 = false ∧
    DegModel.eqQ 180 100 = false ∧
    DegModel.specSignedDegree 100 < DegModel.specSignedDegree 180 := by
  refine ⟨?_, ?_, ?_⟩
  · norm_num [DegModel.gtQ, DegModel.eqQ, DegModel.np_isclose, DegModel.foldDiff,
      DegModel.sdegQ, abs_of_nonneg, abs_of_nonpos]
  · norm_num [DegModel.eqQ, DegModel.np_isclose, DegModel.foldDiff,
      abs_of_nonneg, abs_of_nonpos]
  · norm_num [DegModel.specSignedDegree, DegModel.qmod360, fmod]

/-- C9 amended: greaterThan returns false when equals holds and otherwise
compares the sdegree of the code, which re-expresses a canonical degree in
[-180, 180) — degree 180 maps to -180, not +180 — while bare scalar
operands are folded into (-180, 180]; the ordering-discontinuity example
AngleValue(degree=179.9) > AngleValue(degree=-179.9) holds as stated. -/
theorem gt_spec_amended :
    (∀ d e : ℚ, DegModel.eqQ d e = true → DegModel.gtQ d e = false) ∧
    (∀ d e : ℚ, DegModel.eqQ d e = false →
        (DegModel.gtQ d e = true ↔ DegModel.sdegQ e < DegModel.sdegQ d)) ∧
    (∀ d : ℚ, 0 ≤ d → d < 360 → -180 ≤ DegModel.sdegQ d ∧ DegModel.sdegQ d < 180) ∧
    (∀ v : ℚ, -180 < DegModel.scalarFold v ∧ DegModel.scalarFold v ≤ 180) ∧
    (∀ d v : ℚ, DegModel.eqQ d v = false →
        (DegModel.gtScalarQ d v = true ↔ DegModel.scalarFold v < DegModel.sdegQ d)) ∧
    DegModel.gtQ (DegModel.qmod360 179.9) (DegModel.qmod360 (-179.9)) = true := by
  refine ⟨?_, ?_, ?_, ?_, ?_, ?_⟩
  · intro d e h
    simp [DegModel.gtQ, h]
  · intro d e h
    simp [DegModel.gtQ, h]
  · intro d h0 h1
    unfold DegModel.sdegQ
    split_ifs with h <;> constructor <;> linarith
  · intro v
    have h0 : 0 ≤ DegModel.qmod360 v := fmod_nonneg v (by norm_num)
    have h1 : DegModel.qmod360 v < 360 := fmod_lt v (by norm_num)
    simp only [DegModel.scalarFold]
    split_ifs with h <;> constructor <;> linarith
  · intro d v h
    simp [DegModel.gtScalarQ, h]
  · norm_num [DegModel.gtQ, DegModel.eqQ, DegModel.np_isclose, DegModel.foldDiff,
      DegModel.sdegQ, DegModel.qmod360, fmod, abs_of_nonneg, abs_of_nonpos]

/-- Witness for the amended C9 at concrete inputs. -/
theorem gt_spec_amended_witness :
    DegModel.gtQ 0 0 = false ∧
      (-180 ≤ DegModel.sdegQ 350 ∧ DegModel.sdegQ 350 < 180) :=
  ⟨gt_spec_amended.1 0 0 (by
      norm_num [DegModel.eqQ, DegModel.np_isclose, DegModel.foldDiff,
        abs_of_nonneg, abs_of_nonpos]),
    gt_spec_amended.2.2.1 350 (by norm_num) (by norm_num)⟩

/-- C5: for steps >= 2 angspace returns the list of exactly steps entries
whose i-th element is (start.degree + i * sweep/(steps-1)) % 360 with
sweep = (end.degree - start.degree) % 360 in [0, 360) (the sweep always
advances in the increasing-degree direction); and
angspace(0, 90, 3) = [0, 45, 90]. -/
theorem angspace_spec :
    (∀ s e : ℚ, ∀ n : ℕ, 2 ≤ n →
      0 ≤ DegModel.qmod360 (e - s) ∧ DegModel.qmod360 (e - s) < 360 ∧
      ∃ l : List ℚ, DegModel.angspace s e n = some l ∧ l.length = n ∧
        ∀ i : ℕ, i < n →
          l[i]? = some (DegModel.qmod360
            (s + (i : ℚ) * (DegModel.qmod360 (e - s) / ((n : ℚ) - 1))))) ∧
    DegModel.angspace 0 90 3 = some [0, 45, 90] := by
  constructor
  · intro s e n hn
    refine ⟨fmod_nonneg _ (by norm_num), fmod_lt _ (by norm_num),
      (List.range n).map (fun i : ℕ => DegModel.qmod360
        (s + (i : ℚ) * (DegModel.qmod360 (e - s) / ((n : ℚ) - 1)))), ?_, ?_, ?_⟩
    · unfold DegModel.angspace
      rw [if_neg (by omega)]
    · rw [List.length_map, List.length_range]
    · intro i hi
      rw [List.getElem?_map, List.getElem?_range hi]
      rfl
  · norm_num [DegModel.angspace, DegModel.qmod360, fmod, List.range_succ]

/-- Witness for C5 at a concrete input. -/
theorem angspace_spec_witness :
    0 ≤ DegModel.qmod360 ((90 : ℚ) - 0) ∧ DegModel.qmod360 ((90 : ℚ) - 0) < 360 ∧
    ∃ l : List ℚ, DegModel.angspace 0 90 3 = some l ∧ l.length = 3 ∧
      ∀ i : ℕ, i < 3 →
        l[i]? = some (DegModel.qmod360
          (0 + (i : ℚ) * (DegModel.qmod360 ((90 : ℚ) - 0) / ((3 : ℚ) - 1)))) :=
  angspace_spec.1 0 90 3 (by norm_num)
